import Mathlib

/-!
Verification of the GitHub content-tree synchronization, file-selection and
test-generation pipeline of the Workik AI test-case generator (a React
client).  Each definition below is a shallow embedding of a function from
the source under `src/client/src/components/`; network effects are passed
in explicitly as oracle records, and JavaScript object identity is made
observable through an explicit `ref` tag threaded through a fresh-reference
counter (an object spread `\x7b...item\x7d` allocates a fresh reference).
-/

namespace Workik

/-! ## File classification (FileExplorer.jsx, lines 30-31 and 77-78) -/

/-- Extension table `codeExtensions` from FileExplorer.jsx line 30. -/
def codeExtensions : List String :=
  [".js", ".jsx", ".ts", ".tsx", ".py", ".java", ".cpp", ".c", ".cs", ".php", ".rb", ".go"]

/-- Extension table `testExtensions` from FileExplorer.jsx line 31. -/
def testExtensions : List String :=
  [".test.js", ".spec.js", ".test.ts", ".spec.ts", ".test.py"]

/-- JavaScript `name.endsWith(ext)`: the character sequence of `ext` is a
suffix of the character sequence of `name`. -/
def jsEndsWith (s ext : String) : Bool :=
  decide (ext.data <:+ s.data)

/-- Classification `isCodeFile` computed in `processFileTree`
(FileExplorer.jsx line 77): some code extension is a suffix of the name. -/
def isCodeFileName (name : String) : Bool :=
  codeExtensions.any (fun ext => jsEndsWith name ext)

/-- Classification `isTestFile` computed in `processFileTree`
(FileExplorer.jsx line 78): some test extension is a suffix of the name. -/
def isTestFileName (name : String) : Bool :=
  testExtensions.any (fun ext => jsEndsWith name ext)

theorem jsEndsWith_trans {s t u : String} (h1 : jsEndsWith s t = true)
    (h2 : jsEndsWith t u = true) : jsEndsWith s u = true := by
  simp only [jsEndsWith, decide_eq_true_eq] at h1 h2 ⊢
  exact h2.trans h1

/-- C10: every recognized test file is also classified as a code file,
because every suffix in the test-extension table itself ends with a suffix
listed in the code-extension table. -/
theorem isTestFileName_implies_isCodeFileName (name : String)
    (h : isTestFileName name = true) : isCodeFileName name = true := by
  simp only [isTestFileName, testExtensions, List.any_cons, List.any_nil,
    Bool.or_eq_true, Bool.false_eq_true, or_false] at h
  simp only [isCodeFileName, codeExtensions, List.any_cons, List.any_nil,
    Bool.or_eq_true]
  rcases h with h | h | h | h | h
  · exact Or.inl (jsEndsWith_trans h (by decide))
  · exact Or.inl (jsEndsWith_trans h (by decide))
  · exact Or.inr (Or.inr (Or.inl (jsEndsWith_trans h (by decide))))
  · exact Or.inr (Or.inr (Or.inl (jsEndsWith_trans h (by decide))))
  · exact Or.inr (Or.inr (Or.inr (Or.inr (Or.inl (jsEndsWith_trans h (by decide))))))

/-- Witness for C10 at the concrete file name util.test.js. -/
theorem isTestFileName_implies_isCodeFileName_witness :
    isTestFileName "util.test.js" = true ∧ isCodeFileName "util.test.js" = true :=
  ⟨by decide, isTestFileName_implies_isCodeFileName "util.test.js" (by decide)⟩

/-! ## Tree nodes (FileExplorer.jsx)

A `TreeNode` models one processed entry of the file tree.  `children` is
`none` for the JavaScript value `null` (files) and `some cs` for an array
(directories; `some []` is an empty array, which is truthy in JavaScript).
The `ref` field models the JavaScript object reference: two occurrences
with the same `ref` are the same heap object. -/

inductive TreeNode : Type where
  | mk (name path type : String) (isCodeFile : Bool)
      (children : Option (List TreeNode)) (ref : Nat) : TreeNode

def TreeNode.name : TreeNode → String
  | .mk n _ _ _ _ _ => n

def TreeNode.path : TreeNode → String
  | .mk _ p _ _ _ _ => p

def TreeNode.type : TreeNode → String
  | .mk _ _ t _ _ _ => t

def TreeNode.isCodeFile : TreeNode → Bool
  | .mk _ _ _ c _ _ => c

def TreeNode.children : TreeNode → Option (List TreeNode)
  | .mk _ _ _ _ ch _ => ch

def TreeNode.ref : TreeNode → Nat
  | .mk _ _ _ _ _ r => r

@[simp] theorem TreeNode.name_mk (n p t ic ch r) :
    (TreeNode.mk n p t ic ch r).name = n := rfl

@[simp] theorem TreeNode.path_mk (n p t ic ch r) :
    (TreeNode.mk n p t ic ch r).path = p := rfl

@[simp] theorem TreeNode.type_mk (n p t ic ch r) :
    (TreeNode.mk n p t ic ch r).type = t := rfl

@[simp] theorem TreeNode.isCodeFile_mk (n p t ic ch r) :
    (TreeNode.mk n p t ic ch r).isCodeFile = ic := rfl

@[simp] theorem TreeNode.children_mk (n p t ic ch r) :
    (TreeNode.mk n p t ic ch r).children = ch := rfl

@[simp] theorem TreeNode.ref_mk (n p t ic ch r) :
    (TreeNode.mk n p t ic ch r).ref = r := rfl

/-! ## Path-matched tree substitution (FileExplorer.jsx, `updateTree`, lines 109-121)

The source maps over the sibling list: a node whose `path` equals the
target is replaced by a spread copy carrying the fetched children; a node
with a truthy `children` array (every directory, since directories are
initialized with an empty array) is replaced by a spread copy whose
children are updated recursively; any other node (a file, whose `children`
is `null`) is returned unchanged.  Every spread copy is a fresh heap
object: it receives the next value of the fresh-reference counter `c`,
which is assumed larger than every reference already in the tree. -/

def updateTree (target : String) (newChildren : List TreeNode) :
    List TreeNode → Nat → List TreeNode × Nat
  | [], c => ([], c)
  | TreeNode.mk n p t ic ch r :: rest, c =>
    if p = target then
      let o := updateTree target newChildren rest (c + 1)
      (TreeNode.mk n p t ic (some newChildren) c :: o.1, o.2)
    else
      match ch with
      | some cs =>
        let i := updateTree target newChildren cs (c + 1)
        let o := updateTree target newChildren rest i.2
        (TreeNode.mk n p t ic (some i.1) c :: o.1, o.2)
      | none =>
        let o := updateTree target newChildren rest c
        (TreeNode.mk n p t ic none r :: o.1, o.2)

/-- Erase every object reference in a sibling list, for comparing trees up
to structure (JavaScript `===` distinctions forgotten). -/
def zeroRefs : List TreeNode → List TreeNode
  | [] => []
  | TreeNode.mk n p t ic ch _ :: rest =>
    match ch with
    | some cs => TreeNode.mk n p t ic (some (zeroRefs cs)) 0 :: zeroRefs rest
    | none => TreeNode.mk n p t ic none 0 :: zeroRefs rest

/-- Substitution following the amended reading of the spec sentence: every
node whose `path` equals the target carries the new children, every other
node is structurally unchanged apart from the recursive substitution
inside its children.  Used only to compare with `updateTree` up to
references. -/
def substChildren (target : String) (newChildren : List TreeNode) :
    List TreeNode → List TreeNode
  | [] => []
  | TreeNode.mk n p t ic ch r :: rest =>
    if p = target then
      TreeNode.mk n p t ic (some newChildren) r :: substChildren target newChildren rest
    else
      match ch with
      | some cs =>
        TreeNode.mk n p t ic (some (substChildren target newChildren cs)) r ::
          substChildren target newChildren rest
      | none => TreeNode.mk n p t ic none r :: substChildren target newChildren rest

/-! ## Folder expansion (FileExplorer.jsx, `toggleFolder`, lines 130-143)

The expanded-folder set is a JavaScript `Set` of paths, modelled as a
duplicate-free list of strings.  The returned boolean records whether
`fetchFolderContents` was invoked (a network call). -/

def setAdd (l : List String) (x : String) : List String :=
  if l.contains x then l else l ++ [x]

def setDelete (l : List String) (x : String) : List String :=
  l.filter (fun y => y ≠ x)

/-- Embedding of `toggleFolder`: collapse when the path is in the expanded
set; otherwise expand, fetching the folder contents exactly when
`!folder.children || folder.children.length === 0` (children `null` or an
empty array). -/
def toggleFolder (expanded : List String) (folder : TreeNode) :
    List String × Bool :=
  if expanded.contains folder.path then
    (setDelete expanded folder.path, false)
  else
    (setAdd expanded folder.path,
      match folder.children with
      | none => true
      | some cs => cs.isEmpty)

/-! ## File selection (FileExplorer.jsx, `toggleFileSelection` lines 148-159
and the item click handler lines 210-216) -/

/-- Embedding of `toggleFileSelection`: find the first entry with the same
path; remove it if found (`splice(index, 1)`), append the file otherwise
(`push`). -/
def toggleFileSelection (selected : List TreeNode) (file : TreeNode) :
    List TreeNode :=
  match selected.findIdx? (fun f => f.path == file.path) with
  | some i => selected.eraseIdx i
  | none => selected ++ [file]

/-- Selection effect of the item click handler (lines 210-216): a click on
a directory toggles the folder and leaves the selection untouched; a click
on a code file toggles its selection; a click on any other file does
nothing. -/
def clickSelect (selected : List TreeNode) (item : TreeNode) : List TreeNode :=
  if item.type == "dir" then selected
  else if item.isCodeFile then toggleFileSelection selected item
  else selected

/-- Error taxonomy of the spec for selection attempts. -/
inductive SelectionError : Type where
  | invalidSelectionTarget : SelectionError
deriving DecidableEq

/-- Guarded selection toggle in the vocabulary of the spec: the rejection
branches of the click handler (directory, or file not classified as code)
are reported as `InvalidSelectionTarget`; the accepting branch performs
the toggle of `toggleFileSelection`. -/
def toggleSelection (selected : List TreeNode) (node : TreeNode) :
    Except SelectionError (List TreeNode) :=
  if node.type == "dir" || !node.isCodeFile then
    Except.error SelectionError.invalidSelectionTarget
  else
    Except.ok (toggleFileSelection selected node)

/-! ## Generation pipeline (TestCaseGenerator.jsx)

Network effects are supplied by a `GenEnv` record: `directFetch` models
`fetch(file.download_url)` (a transport error, or a response with `ok`,
`status` and text body), `apiFetch` models the authenticated contents API
call with parsed JSON payload, `atob` is the host base64 decoder, and
`backend` models the `POST /generate-testcases` call. -/

/-- Test case pair returned by the generation backend or the mock table. -/
structure TestCase : Type where
  input : String
  output : String
deriving DecidableEq, Repr

/-- Result of `fetch` on a raw content URL: `ok`, `status`, and the text
body. -/
structure HttpResponse : Type where
  ok : Bool
  status : Nat
  body : String
deriving DecidableEq, Repr

/-- Parsed JSON payload of the authenticated contents API call:
`data.type` and `data.content` (absent or empty content is falsy). -/
structure ApiResponse : Type where
  ok : Bool
  status : Nat
  dataType : String
  content : Option String
deriving DecidableEq, Repr

/-- Parsed JSON payload of the generation backend: `data.test_cases` may
be absent (`data.test_cases || []`). -/
structure BackendResponse : Type where
  ok : Bool
  status : Nat
  testCases : Option (List TestCase)
deriving DecidableEq, Repr

/-- Network and host-function oracles for the generation pipeline. -/
structure GenEnv : Type where
  directFetch : String → Except String HttpResponse
  apiFetch : String → Except String ApiResponse
  atob : String → String
  backend : String → Except String BackendResponse

/-- File descriptor handed to the pipeline: a GitHub listing entry with
`name`, `path` and an optional `download_url`. -/
structure GhFile : Type where
  name : String
  path : String
  download_url : Option String
deriving DecidableEq, Repr

/-- Identifiers bound in the scope of the `TestCaseGenerator` component
(TestCaseGenerator.jsx): the module imports, the component name, its
destructured props, its state hooks and its local functions.  Neither
`selectedRepo` nor `githubToken` is among them. -/
def testCaseGeneratorScope : List String :=
  ["React", "useState", "useEffect", "motion", "AnimatePresence",
   "Sparkles", "FileCode2", "TestTube", "Play", "CheckCircle",
   "AlertCircle", "Clock", "Code", "ArrowRight", "Zap",
   "TestCaseGenerator", "selectedFiles", "onTestCasesGenerated",
   "onCodeGenerated", "setIsLoading", "currentFileIndex",
   "setCurrentFileIndex", "testCaseSummaries", "setTestCaseSummaries",
   "isGenerating", "setIsGenerating", "error", "setError",
   "generatedTestCases", "setGeneratedTestCases", "startGeneration",
   "fetchFileContent", "generateTestCasesForFile", "generateFinalCode"]

/-- Does an identifier resolve inside `TestCaseGenerator`?  Evaluating an
unresolvable identifier throws a `ReferenceError` whose message is
`name is not defined`. -/
def resolvesInGenerator (n : String) : Bool :=
  testCaseGeneratorScope.contains n

/-- JavaScript `data.content.replace(/\n/g, new-line removed)`. -/
def stripNewlines (s : String) : String :=
  String.mk (s.data.filter (fun c => c ≠ '\n'))

/-- Placeholder source text substituted by the catch-all of
`fetchFileContent` (TestCaseGenerator.jsx line 168). -/
def mockContent (name errMsg : String) : String :=
  "// Mock content for " ++ name ++ " (failed to fetch real content)\n// Error: "
    ++ errMsg ++ "\nfunction sampleFunction() \x7b\n  return \"Hello World\";\n\x7d"

/-- Body of the `try` block of `fetchFileContent` (lines 113-161).  With a
`download_url` the raw content is fetched, a non-ok response throwing
directly (there is no fall-through to the API tier).  Without a
`download_url` the code builds the API URL from `selectedRepo.full_name`;
since `selectedRepo` (and `githubToken`) do not resolve in this component,
that line throws a `ReferenceError` before any API request is issued; the
API branch is kept faithful to the source for the hypothetical resolving
scope. -/
def fetchFileContentAttempt (env : GenEnv) (file : GhFile) :
    Except String String :=
  match file.download_url with
  | some url =>
    match env.directFetch url with
    | Except.error e => Except.error e
    | Except.ok resp =>
      if !resp.ok then
        Except.error ("Failed to fetch via download_url: " ++ toString resp.status)
      else Except.ok resp.body
  | none =>
    if resolvesInGenerator "selectedRepo" then
      match env.apiFetch file.path with
      | Except.error e => Except.error e
      | Except.ok resp =>
        if !resp.ok then
          Except.error ("GitHub API error: " ++ toString resp.status)
        else
          match resp.content with
          | some c =>
            if resp.dataType == "file" && c != "" then
              Except.ok (env.atob (stripNewlines c))
            else Except.error "Invalid file data received from GitHub API"
          | none => Except.error "Invalid file data received from GitHub API"
    else Except.error "selectedRepo is not defined"

/-- Embedding of `fetchFileContent` (lines 108-170): the catch-all turns
every failure into the mock placeholder, so the function is total. -/
def fetchFileContent (env : GenEnv) (file : GhFile) : String :=
  match fetchFileContentAttempt env file with
  | Except.ok c => c
  | Except.error e => mockContent file.name e

/-- Fixed mock test cases substituted when the backend call fails
(TestCaseGenerator.jsx lines 210-215). -/
def mockTestCases (fileName : String) : List TestCase :=
  [⟨"// Function from " ++ fileName, "\"Mock Result 1\""⟩,
   ⟨"// Test case 2 for " ++ fileName, "\"Mock Result 2\""⟩,
   ⟨"// Test case 3 for " ++ fileName, "\"Mock Result 3\""⟩,
   ⟨"// Test case 4 for " ++ fileName, "\"Mock Result 4\""⟩]

/-- Embedding of `generateTestCasesForFile` (lines 175-220): a non-ok
response or a transport failure falls back to the mock table; a successful
response yields `data.test_cases || []`. -/
def generateTestCasesForFile (env : GenEnv) (code fileName : String) :
    List TestCase :=
  match env.backend code with
  | Except.error _ => mockTestCases fileName
  | Except.ok resp =>
    if !resp.ok then mockTestCases fileName
    else resp.testCases.getD []

/-- Per-file summary record built in `startGeneration` (lines 72-78). -/
structure Summary : Type where
  fileName : String
  filePath : String
  testCaseCount : Nat
  status : String
  testCases : List TestCase
deriving DecidableEq, Repr

/-- One iteration of the `startGeneration` loop (lines 50-89): fetch the
content (total, by fallback), generate test cases (total, by fallback) and
build the summary.  No operation in the loop body can throw, which is how
the run as a whole never aborts. -/
def processFile (env : GenEnv) (file : GhFile) : Summary :=
  { fileName := file.name, filePath := file.path,
    testCaseCount :=
      (generateTestCasesForFile env (fetchFileContent env file) file.name).length,
    status := "completed",
    testCases := generateTestCasesForFile env (fetchFileContent env file) file.name }

/-- Embedding of the summary accumulation of `startGeneration`: the loop
pushes one summary per selected file, in selection order. -/
def startGeneration (env : GenEnv) (files : List GhFile) : List Summary :=
  files.map (processFile env)

/-! ## Publish workflow (TestCaseViewer.jsx) -/

/-- Response of the default-branch ref lookup, with
`defaultBranchData.object.sha`. -/
structure RefResponse : Type where
  ok : Bool
  status : Nat
  sha : String
deriving DecidableEq, Repr

/-- Response of the branch-creation POST. -/
structure CreateRefResponse : Type where
  ok : Bool
  status : Nat
deriving DecidableEq, Repr

/-- Response of the existence check on the target path, with
`existingFileData.sha`. -/
structure ContentsResponse : Type where
  ok : Bool
  status : Nat
  sha : String
deriving DecidableEq, Repr

/-- Network and host-function oracles for the publish workflow.  `encode`
is the base64 encoding `btoa(unescape(encodeURIComponent(code)))`. -/
structure PublishEnv : Type where
  getDefaultBranchRef : Except String RefResponse
  createRef : String → String → Except String CreateRefResponse
  getExistingFile : Except String ContentsResponse
  encode : String → String

/-- Body of the `try` block of `createBranchIfNotExists`
(TestCaseViewer.jsx lines 94-133): read the default branch tip, throwing
on a non-ok response; create the branch at that sha, throwing when the
response is not ok and its status is not 422. -/
def createBranchBody (env : PublishEnv) (branchName : String) :
    Except String Unit :=
  match env.getDefaultBranchRef with
  | Except.error e => Except.error e
  | Except.ok r =>
    if !r.ok then Except.error "Failed to get default branch"
    else
      match env.createRef branchName r.sha with
      | Except.error e => Except.error e
      | Except.ok c =>
        if !c.ok && c.status != 422 then Except.error "Failed to create branch"
        else Except.ok ()

/-- Embedding of `createBranchIfNotExists` (lines 93-138): the catch logs
the error and continues, so the operation always succeeds. -/
def createBranchIfNotExists (env : PublishEnv) (branchName : String) :
    Except String Unit :=
  match createBranchBody env branchName with
  | Except.ok _ => Except.ok ()
  | Except.error _ => Except.ok ()

/-- Request body of the create-or-update PUT (lines 168-176). -/
structure PutBody : Type where
  message : String
  content : String
  branch : String
  sha : Option String
deriving DecidableEq, Repr

/-- Request-body construction of `createOrUpdateFile` (lines 143-189): the
existence check sets `existingFileSha` only on an ok response (a transport
error is swallowed); the `sha` field is attached only when
`existingFileSha` is truthy (a non-empty string). -/
def createOrUpdateFileBody (env : PublishEnv)
    (commitMessage branchName generatedCode : String) : PutBody :=
  let existingFileSha : Option String :=
    match env.getExistingFile with
    | Except.error _ => none
    | Except.ok r => if r.ok then some r.sha else none
  let base : PutBody :=
    { message := commitMessage, content := env.encode generatedCode,
      branch := branchName, sha := none }
  match existingFileSha with
  | some s => if s ≠ "" then { base with sha := some s } else base
  | none => base

/-! ## Tree substitution: claim C3 -/

theorem zeroRefs_updateTree (target : String) (nc : List TreeNode) :
    ∀ (m : Nat) (items : List TreeNode), sizeOf items ≤ m → ∀ c : Nat,
      zeroRefs (updateTree target nc items c).1 =
        substChildren target (zeroRefs nc) (zeroRefs items) := by
  intro m
  induction m with
  | zero =>
    intro items h c
    cases items with
    | nil => simp [updateTree, zeroRefs, substChildren]
    | cons a rest =>
      rw [List.cons.sizeOf_spec] at h
      omega
  | succ mm ih =>
    intro items h c
    cases items with
    | nil => simp [updateTree, zeroRefs, substChildren]
    | cons a rest =>
      obtain ⟨n, p, t, ic, ch, r⟩ := a
      cases ch with
      | some cs =>
        have h1 : sizeOf cs ≤ mm := by simp at h; omega
        have h2 : sizeOf rest ≤ mm := by simp at h; omega
        by_cases hp : p = target
        · simp [updateTree, zeroRefs, substChildren, hp, ih rest h2]
        · simp [updateTree, zeroRefs, substChildren, hp, ih cs h1, ih rest h2]
      | none =>
        have h2 : sizeOf rest ≤ mm := by simp at h; omega
        by_cases hp : p = target
        · simp [updateTree, zeroRefs, substChildren, hp, ih rest h2]
        · simp [updateTree, zeroRefs, substChildren, hp, ih rest h2]

theorem updateTree_length (target : String) (nc : List TreeNode) :
    ∀ (items : List TreeNode) (c : Nat),
      ((updateTree target nc items c).1).length = items.length := by
  intro items
  induction items with
  | nil => intro c; simp [updateTree]
  | cons a rest ih =>
    intro c
    obtain ⟨n, p, t, ic, ch, r⟩ := a
    cases ch with
    | some cs =>
      by_cases hp : p = target
      · simp [updateTree, hp, ih]
      · simp [updateTree, hp, ih]
    | none =>
      by_cases hp : p = target
      · simp [updateTree, hp, ih]
      · simp [updateTree, hp, ih]

theorem updateTree_get?_of_file (target : String) (nc : List TreeNode) :
    ∀ (items : List TreeNode) (c i : Nat) (x : TreeNode),
      items.get? i = some x → x.path ≠ target → x.children = none →
      ((updateTree target nc items c).1).get? i = some x := by
  intro items
  induction items with
  | nil => intro c i x hget _ _; simp at hget
  | cons a rest ih =>
    intro c i x hget hxp hxc
    obtain ⟨n, p, t, ic, ch, r⟩ := a
    cases i with
    | zero =>
      rw [List.get?_cons_zero] at hget
      injection hget with hx
      subst hx
      have hp : p ≠ target := by simpa using hxp
      have hc : ch = none := by simpa using hxc
      subst hc
      simp [updateTree, hp]
    | succ j =>
      rw [List.get?_cons_succ] at hget
      cases ch with
      | some cs =>
        by_cases hp : p = target
        · simp only [updateTree, hp, if_pos rfl, List.get?_cons_succ]
          exact ih (c + 1) j x hget hxp hxc
        · simp only [updateTree, hp, if_false, List.get?_cons_succ]
          exact ih _ j x hget hxp hxc
      | none =>
        by_cases hp : p = target
        · simp only [updateTree, hp, if_pos rfl, List.get?_cons_succ]
          exact ih (c + 1) j x hget hxp hxc
        · simp only [updateTree, hp, if_false, List.get?_cons_succ]
          exact ih c j x hget hxp hxc

theorem updateTree_get?_of_target (target : String) (nc : List TreeNode) :
    ∀ (items : List TreeNode) (c i : Nat) (x : TreeNode),
      items.get? i = some x → x.path = target →
      ∃ s, ((updateTree target nc items c).1).get? i =
        some (TreeNode.mk x.name x.path x.type x.isCodeFile (some nc) s) := by
  intro items
  induction items with
  | nil => intro c i x hget _; simp at hget
  | cons a rest ih =>
    intro c i x hget hxp
    obtain ⟨n, p, t, ic, ch, r⟩ := a
    cases i with
    | zero =>
      rw [List.get?_cons_zero] at hget
      injection hget with hx
      subst hx
      have hp : p = target := by simpa using hxp
      cases ch with
      | some cs => exact ⟨c, by simp [updateTree, hp]⟩
      | none => exact ⟨c, by simp [updateTree, hp]⟩
    | succ j =>
      rw [List.get?_cons_succ] at hget
      cases ch with
      | some cs =>
        by_cases hp : p = target
        · simp only [updateTree, hp, if_pos rfl, List.get?_cons_succ]
          exact ih (c + 1) j x hget hxp
        · simp only [updateTree, hp, if_false, List.get?_cons_succ]
          exact ih _ j x hget hxp
      | none =>
        by_cases hp : p = target
        · simp only [updateTree, hp, if_pos rfl, List.get?_cons_succ]
          exact ih (c + 1) j x hget hxp
        · simp only [updateTree, hp, if_false, List.get?_cons_succ]
          exact ih c j x hget hxp

/-- C3, amended: the substitution is structurally correct — up to object
references the result is exactly the tree with every target node carrying
the new children and everything else unchanged — and the sibling-list
shape is preserved; but only childless nodes (files) outside the target
are returned unchanged by object identity, while a node whose path
matches the target is replaced by a fresh copy carrying the new children.
Sibling directories keep their cached children only up to structural
equality, not by identity (see the counterexample). -/
theorem updateTree_amended (target : String) (nc items : List TreeNode) (c : Nat) :
    zeroRefs (updateTree target nc items c).1 =
      substChildren target (zeroRefs nc) (zeroRefs items) ∧
    ((updateTree target nc items c).1).length = items.length ∧
    (∀ i x, items.get? i = some x → x.path ≠ target → x.children = none →
      ((updateTree target nc items c).1).get? i = some x) ∧
    (∀ i x, items.get? i = some x → x.path = target →
      ∃ s, ((updateTree target nc items c).1).get? i =
        some (TreeNode.mk x.name x.path x.type x.isCodeFile (some nc) s)) :=
  ⟨zeroRefs_updateTree target nc (sizeOf items) items (Nat.le_refl _) c,
    updateTree_length target nc items c,
    fun i x h1 h2 h3 => updateTree_get?_of_file target nc items c i x h1 h2 h3,
    fun i x h1 h2 => updateTree_get?_of_target target nc items c i x h1 h2⟩

/-- Sibling directory b with cached (empty) children, reference 1. -/
def dirB : TreeNode := TreeNode.mk "b" "b" "dir" false (some []) 1

/-- Directory a, the expansion target, reference 2. -/
def dirA : TreeNode := TreeNode.mk "a" "a" "dir" false (some []) 2

/-- Freshly fetched children for directory a. -/
def newKids : List TreeNode := [TreeNode.mk "x.js" "a/x.js" "file" true none 3]

/-- C3, counterexample: substituting the fetched children of directory a
into the tree [b, a] with fresh references starting at 100 rebuilds the
untouched sibling directory b as a fresh object (reference 100 instead of
its original reference 1), so b is not returned unchanged by object
identity, contrary to the claim. -/
theorem updateTree_sibling_not_identical :
    (updateTree "a" newKids [dirB, dirA] 100).1.map TreeNode.ref = [100, 101] ∧
      dirB.ref = 1 ∧ dirA.ref = 2 := by
  refine ⟨?_, rfl, rfl⟩
  simp [updateTree, dirB, dirA, newKids, TreeNode.ref]

/-- File node used by the C3 witness. -/
def fileC : TreeNode := TreeNode.mk "c.js" "c.js" "file" true none 7

/-- Witness for the amended C3: a childless file node outside the target
path is returned by identity. -/
theorem updateTree_amended_witness :
    ((updateTree "a" newKids [fileC, dirA] 100).1).get? 0 = some fileC :=
  (updateTree_amended "a" newKids [fileC, dirA] 100).2.2.1 0 fileC rfl
    (by decide) rfl

/-! ## Folder expansion: claim C4 -/

/-- Directory whose children have been fetched and came back empty:
`children` is an empty array, which the spec distinguishes from the
not-yet-fetched `null`. -/
def fetchedEmptyDir : TreeNode :=
  TreeNode.mk "lib" "lib" "dir" false (some []) 5

/-- C4, counterexample: expanding a directory whose children were already
fetched (an empty fetched child sequence, `children = some []`) does
trigger the network call, because the source guards the fetch with
`!folder.children || folder.children.length === 0`.  The claim that
fetching happens only when children are absent is therefore false. -/
theorem toggleFolder_refetch_on_empty :
    toggleFolder [] fetchedEmptyDir = (["lib"], true) ∧
      fetchedEmptyDir.children = some [] :=
  ⟨rfl, rfl⟩

/-- C4, amended: the fetch fires exactly when the folder is not currently
expanded and its children are absent or an empty sequence; re-expanding a
directory with a non-empty fetched child sequence performs no network
call, and collapsing never fetches. -/
theorem toggleFolder_fetch_iff (expanded : List String) (folder : TreeNode) :
    ((toggleFolder expanded folder).2 = true ↔
      expanded.contains folder.path = false ∧
        (folder.children = none ∨ folder.children = some [])) ∧
    (∀ cs, folder.children = some cs → cs ≠ [] →
      (toggleFolder expanded folder).2 = false) := by
  constructor
  · by_cases hc : folder.path ∈ expanded
    · simp [toggleFolder, hc]
    · cases hch : folder.children with
      | none => simp [toggleFolder, hc, hch]
      | some cs => simp [toggleFolder, hc, hch, List.isEmpty_iff]
  · intro cs hcs hne
    by_cases hc : folder.path ∈ expanded
    · simp [toggleFolder, hc]
    · simp [toggleFolder, hc, hcs, List.isEmpty_iff, hne]

/-- Witness for the amended C4 at a directory with one cached child. -/
theorem toggleFolder_fetch_iff_witness :
    (toggleFolder []
        (TreeNode.mk "src" "src" "dir" false (some [fetchedEmptyDir]) 9)).2 = false :=
  (toggleFolder_fetch_iff []
      (TreeNode.mk "src" "src" "dir" false (some [fetchedEmptyDir]) 9)).2
    [fetchedEmptyDir] rfl (by simp)

/-! ## Selection: claim C5 -/

theorem toggleFileSelection_nil (node : TreeNode) :
    toggleFileSelection [] node = [node] := rfl

theorem toggleFileSelection_cons_pos (a : TreeNode) (rest : List TreeNode)
    (node : TreeNode) (h : (a.path == node.path) = true) :
    toggleFileSelection (a :: rest) node = rest := by
  unfold toggleFileSelection
  rw [List.findIdx?_cons, h]
  simp

theorem toggleFileSelection_cons_neg (a : TreeNode) (rest : List TreeNode)
    (node : TreeNode) (h : (a.path == node.path) = false) :
    toggleFileSelection (a :: rest) node = a :: toggleFileSelection rest node := by
  unfold toggleFileSelection
  rw [List.findIdx?_cons, h]
  simp only [Bool.false_eq_true, if_false, List.findIdx?_succ]
  cases hi : rest.findIdx? (fun f => f.path == node.path) with
  | none => simp
  | some j => simp

theorem toggleFileSelection_of_not_mem (sel : List TreeNode) (node : TreeNode)
    (h : ∀ f ∈ sel, f.path ≠ node.path) :
    toggleFileSelection sel node = sel ++ [node] := by
  induction sel with
  | nil => rfl
  | cons a rest ih =>
    have hpa : (a.path == node.path) = false := by
      simpa using h a (List.mem_cons_self a rest)
    rw [toggleFileSelection_cons_neg a rest node hpa,
      ih (fun f hf => h f (List.mem_cons_of_mem a hf))]
    rfl

theorem toggleFileSelection_of_mem (sel : List TreeNode) (node : TreeNode)
    (hnd : (sel.map TreeNode.path).Nodup) (h : ∃ f ∈ sel, f.path = node.path) :
    toggleFileSelection sel node = sel.filter (fun f => f.path != node.path) := by
  induction sel with
  | nil => simp at h
  | cons a rest ih =>
    simp only [List.map_cons, List.nodup_cons] at hnd
    by_cases ha : a.path = node.path
    · have hpa : (a.path == node.path) = true := by simpa using ha
      have hrest : rest.filter (fun f => f.path != node.path) = rest := by
        rw [List.filter_eq_self]
        intro x hx
        have hxa : x.path ≠ a.path := by
          intro hx2
          exact hnd.1 (hx2 ▸ List.mem_map_of_mem TreeNode.path hx)
        simpa [ha] using fun hx3 => hxa (hx3.trans ha.symm)
      rw [toggleFileSelection_cons_pos a rest node hpa, List.filter_cons]
      simp [hpa, hrest, ha]
    · have hpa : (a.path == node.path) = false := by simpa using ha
      have hrest : ∃ f ∈ rest, f.path = node.path := by
        rcases h with ⟨f, hf, hfp⟩
        rcases List.mem_cons.mp hf with rfl | hfr
        · exact absurd hfp ha
        · exact ⟨f, hfr, hfp⟩
      rw [toggleFileSelection_cons_neg a rest node hpa, ih hnd.2 hrest,
        List.filter_cons]
      simp [hpa, ha]

/-- C5: a selection attempt on a directory or a non-code file is rejected
(`InvalidSelectionTarget` in the vocabulary of the spec) and the click
leaves the selection unchanged; on a code file the click toggles by path:
the entry is appended when no entry with the same path is present, and the
entry with that path is removed when one is. -/
theorem toggleSelection_spec (sel : List TreeNode) (node : TreeNode) :
    (node.type = "dir" ∨ node.isCodeFile = false →
      toggleSelection sel node = Except.error SelectionError.invalidSelectionTarget ∧
        clickSelect sel node = sel) ∧
    (node.type ≠ "dir" → node.isCodeFile = true →
      toggleSelection sel node = Except.ok (toggleFileSelection sel node) ∧
        clickSelect sel node = toggleFileSelection sel node) ∧
    ((∀ f ∈ sel, f.path ≠ node.path) →
      toggleFileSelection sel node = sel ++ [node]) ∧
    ((sel.map TreeNode.path).Nodup → (∃ f ∈ sel, f.path = node.path) →
      toggleFileSelection sel node = sel.filter (fun f => f.path != node.path)) := by
  refine ⟨?_, ?_, toggleFileSelection_of_not_mem sel node,
    toggleFileSelection_of_mem sel node⟩
  · rintro (hd | hnc)
    · exact ⟨by simp [toggleSelection, hd], by simp [clickSelect, hd]⟩
    · by_cases hd : node.type = "dir"
      · exact ⟨by simp [toggleSelection, hd], by simp [clickSelect, hd]⟩
      · exact ⟨by simp [toggleSelection, hd, hnc], by simp [clickSelect, hd, hnc]⟩
  · intro hd hc
    exact ⟨by simp [toggleSelection, hd, hc], by simp [clickSelect, hd, hc]⟩

/-- Sample tree nodes for the selection witness. -/
def codeNode : TreeNode := TreeNode.mk "app.js" "src/app.js" "file" true none 11

/-- Directory node used in witnesses. -/
def dirNode : TreeNode := TreeNode.mk "src" "src" "dir" false (some []) 12

/-- Witness for C5 at concrete nodes: toggling a code file into an empty
selection appends it, and toggling a directory is rejected. -/
theorem toggleSelection_spec_witness :
    toggleFileSelection [] codeNode = [codeNode] ∧
      toggleSelection [codeNode] dirNode =
        Except.error SelectionError.invalidSelectionTarget := by
  constructor
  · have h := (toggleSelection_spec [] codeNode).2.2.1 (by intro f hf; simp at hf)
    simpa using h
  · exact ((toggleSelection_spec [codeNode] dirNode).1 (Or.inl rfl)).1

/-! ## Generation pipeline: claims C1, C8, C2 -/

/-- C1: a single run emits exactly one summary per selected file, carrying
that file's name and path, in selection order, for every behavior of the
network (including total failure of every fetch and every generation
call): the embedding is a total function because every failure path in
`fetchFileContent` and `generateTestCasesForFile` is caught locally, so
the run never aborts. -/
theorem startGeneration_one_summary_per_file (env : GenEnv) (files : List GhFile) :
    (startGeneration env files).length = files.length ∧
      (startGeneration env files).map (fun s => (s.fileName, s.filePath)) =
        files.map (fun f => (f.name, f.path)) := by
  constructor
  · simp [startGeneration]
  · simp only [startGeneration, List.map_map]
    rfl

/-- Selected file `a.js` of the C8 scenario. -/
def aJs : GhFile := ⟨"a.js", "src/a.js", some "https://raw.example/a.js"⟩

/-- Selected file `b.py` of the C8 scenario. -/
def bPy : GhFile := ⟨"b.py", "src/b.py", some "https://raw.example/b.py"⟩

/-- C8: when every content fetch and every generation call fails, the run
over the two files a.js and b.py produces exactly two summaries, each with
the fixed mock test cases referencing the file name, count 4 and status
completed. -/
theorem fetchFileContent_direct_error (env : GenEnv) (f : GhFile)
    (url e : String) (hu : f.download_url = some url)
    (h : env.directFetch url = Except.error e) :
    fetchFileContent env f = mockContent f.name e := by
  simp only [fetchFileContent, fetchFileContentAttempt, hu, h]

theorem generateTestCasesForFile_error (env : GenEnv) (code fileName e : String)
    (h : env.backend code = Except.error e) :
    generateTestCasesForFile env code fileName = mockTestCases fileName := by
  simp only [generateTestCasesForFile, h]

theorem processFile_allFail (env : GenEnv) (f : GhFile) (url : String)
    (hu : f.download_url = some url)
    (hfe : ∃ e, env.directFetch url = Except.error e)
    (hge : ∀ c, ∃ e, env.backend c = Except.error e) :
    processFile env f =
      { fileName := f.name, filePath := f.path, testCaseCount := 4,
        status := "completed", testCases := mockTestCases f.name } := by
  obtain ⟨e, he⟩ := hfe
  obtain ⟨e2, he2⟩ := hge (mockContent f.name e)
  unfold processFile
  rw [fetchFileContent_direct_error env f url e hu he,
    generateTestCasesForFile_error env (mockContent f.name e) f.name e2 he2]
  rfl

theorem startGeneration_allFail (env : GenEnv)
    (hfetch : ∀ u, ∃ e, env.directFetch u = Except.error e)
    (hgen : ∀ c, ∃ e, env.backend c = Except.error e) :
    startGeneration env [aJs, bPy] =
      [{ fileName := "a.js", filePath := "src/a.js", testCaseCount := 4,
         status := "completed", testCases := mockTestCases "a.js" },
       { fileName := "b.py", filePath := "src/b.py", testCaseCount := 4,
         status := "completed", testCases := mockTestCases "b.py" }] := by
  have ha := processFile_allFail env aJs "https://raw.example/a.js" rfl
    (hfetch "https://raw.example/a.js") hgen
  have hb := processFile_allFail env bPy "https://raw.example/b.py" rfl
    (hfetch "https://raw.example/b.py") hgen
  unfold startGeneration
  rw [List.map_cons, List.map_cons, List.map_nil, ha, hb]
  rfl

/-- Environment in which every remote call fails. -/
def failEnv : GenEnv :=
  { directFetch := fun _ => Except.error "network failure",
    apiFetch := fun _ => Except.error "network failure",
    atob := id,
    backend := fun _ => Except.error "HTTP error! status: 500" }

/-- Witness for C8 in the all-failing environment. -/
theorem startGeneration_allFail_witness :
    startGeneration failEnv [aJs, bPy] =
      [{ fileName := "a.js", filePath := "src/a.js", testCaseCount := 4,
         status := "completed", testCases := mockTestCases "a.js" },
       { fileName := "b.py", filePath := "src/b.py", testCaseCount := 4,
         status := "completed", testCases := mockTestCases "b.py" }] :=
  startGeneration_allFail failEnv (fun _ => ⟨"network failure", rfl⟩)
    (fun _ => ⟨"HTTP error! status: 500", rfl⟩)

/-- Environment whose direct fetch answers 404 but whose authenticated
contents API would succeed with decodable content. -/
def env404 : GenEnv :=
  { directFetch := fun _ => Except.ok ⟨false, 404, ""⟩,
    apiFetch := fun _ => Except.ok ⟨true, 200, "file", some "aGVsbG8="⟩,
    atob := fun _ => "hello",
    backend := fun _ => Except.error "unused" }

/-- File with a direct-content URL whose fetch will answer 404. -/
def fUrl : GhFile := ⟨"f.js", "src/f.js", some "https://raw.example/f.js"⟩

/-- File without a direct-content URL. -/
def gNoUrl : GhFile := ⟨"g.js", "src/g.js", none⟩

/-- C2, divergence: the claimed three-tier fallback does not exist in the
code.  A failing direct fetch throws inside the catch-all and yields the
placeholder immediately, skipping the authenticated API tier even though
that API would succeed; and when no direct URL exists, building the API
URL evaluates `selectedRepo`, which does not resolve in this component, so
a ReferenceError is thrown before any API request and the placeholder is
returned.  Only the final guarantee of the claim (retrieval is total)
survives. -/
theorem fetchFileContent_divergence :
    fetchFileContent env404 fUrl =
        mockContent "f.js" "Failed to fetch via download_url: 404" ∧
      fetchFileContent env404 gNoUrl =
        mockContent "g.js" "selectedRepo is not defined" ∧
      resolvesInGenerator "selectedRepo" = false ∧
      resolvesInGenerator "githubToken" = false :=
  ⟨rfl, rfl, by decide, by decide⟩

/-! ## Publish workflow: claims C6, C7 -/

/-- C6: the ensure-branch operation never propagates an error, and a
branch-creation response with conflict status 422 completes the try block
successfully (it is not even routed through the catch). -/
theorem createBranch_never_propagates (env : PublishEnv) (branchName : String) :
    createBranchIfNotExists env branchName = Except.ok () ∧
      (∀ r c, env.getDefaultBranchRef = Except.ok r → r.ok = true →
        env.createRef branchName r.sha = Except.ok c → c.status = 422 →
        createBranchBody env branchName = Except.ok ()) := by
  constructor
  · unfold createBranchIfNotExists
    cases createBranchBody env branchName <;> rfl
  · intro r c h1 h2 h3 h4
    unfold createBranchBody
    rw [h1]
    simp [h2, h3, h4]

/-- Environment where the branch-creation POST answers the 422 conflict. -/
def env422 : PublishEnv :=
  { getDefaultBranchRef := Except.ok ⟨true, 200, "headsha"⟩,
    createRef := fun _ _ => Except.ok ⟨false, 422⟩,
    getExistingFile := Except.error "unused",
    encode := id }

/-- Witness for C6 in the 422-conflict environment. -/
theorem createBranch_never_propagates_witness :
    createBranchIfNotExists env422 "workik-test-cases" = Except.ok () ∧
      createBranchBody env422 "workik-test-cases" = Except.ok () :=
  ⟨(createBranch_never_propagates env422 "workik-test-cases").1,
    (createBranch_never_propagates env422 "workik-test-cases").2
      ⟨true, 200, "headsha"⟩ ⟨false, 422⟩ rfl rfl rfl rfl⟩

/-- C7: assuming the remote contents API returns a non-empty revision
marker on an ok existence response, the PUT request body carries a `sha`
field exactly when the existence check found a file (an ok response), and
then it is the sha obtained from that check. -/
theorem createOrUpdateFileBody_sha_iff (env : PublishEnv)
    (msg br code : String)
    (hsha : ∀ r, env.getExistingFile = Except.ok r → r.ok = true → r.sha ≠ "") :
    ∀ s, (createOrUpdateFileBody env msg br code).sha = some s ↔
      ∃ r, env.getExistingFile = Except.ok r ∧ r.ok = true ∧ r.sha = s := by
  intro s
  unfold createOrUpdateFileBody
  cases h : env.getExistingFile with
  | error e => simp [h]
  | ok r =>
    by_cases hro : r.ok
    · have hne : r.sha ≠ "" := hsha r h hro
      simp [h, hro, hne]
    · simp only [h, hro, Bool.false_eq_true, if_false]
      constructor
      · intro hs
        simp at hs
      · rintro ⟨r2, hr2, hro2, _⟩
        cases hr2
        exact absurd hro2 hro

/-- Environment where the existence check finds a file with sha oldsha. -/
def envWithFile : PublishEnv :=
  { getDefaultBranchRef := Except.error "unused",
    createRef := fun _ _ => Except.error "unused",
    getExistingFile := Except.ok ⟨true, 200, "oldsha"⟩,
    encode := id }

/-- Witness for C7: with a prior file the body carries its sha. -/
theorem createOrUpdateFileBody_sha_iff_witness :
    (createOrUpdateFileBody envWithFile "msg" "wb" "code").sha = some "oldsha" :=
  (createOrUpdateFileBody_sha_iff envWithFile "msg" "wb" "code"
      (fun r hr _ => by cases hr; decide) "oldsha").mpr
    ⟨⟨true, 200, "oldsha"⟩, rfl, rfl, rfl⟩

/-! ## Sibling sort order: claim C9

The comparator of `processFileTree` (FileExplorer.jsx lines 85-88) is
`if (a.type === b.type) return a.name.localeCompare(b.name); return
a.type === 'dir' ? -1 : 1`.  The name comparison delegates to the host
collation `localeCompare`, passed here as the parameter `lc`.
`Array.prototype.sort` with a consistent comparator returns the stable
sorted permutation of its input, which is exactly what insertion sort
computes, so the sort is embedded through `List.insertionSort`. -/

/-- Sibling comparator of `processFileTree`, parameterized by the host
string collation `lc`. -/
def cmpNode (lc : String → String → Int) (a b : TreeNode) : Int :=
  if a.type = b.type then lc a.name b.name
  else if a.type = "dir" then -1 else 1

/-- Order induced by the comparator: `a` may come before `b`. -/
def siblingLe (lc : String → String → Int) (a b : TreeNode) : Prop :=
  cmpNode lc a b ≤ 0

instance (lc : String → String → Int) : DecidableRel (siblingLe lc) :=
  fun a b => inferInstanceAs (Decidable (cmpNode lc a b ≤ 0))

/-- Embedding of `processed.sort(comparator)`. -/
def sortSiblings (lc : String → String → Int) (items : List TreeNode) :
    List TreeNode :=
  List.insertionSort (siblingLe lc) items

/-- Conversion of a comparison outcome to the integer convention of
`localeCompare`. -/
def ordToInt : Ordering → Int
  | Ordering.lt => -1
  | Ordering.eq => 0
  | Ordering.gt => 1

/-- Strict code-unit order on character sequences: the order JavaScript
uses for `<` on strings, and the case-sensitive lexicographic order the
claim asserts (code points suffice for the ASCII names involved). -/
def codeUnitLtB : List Char → List Char → Bool
  | [], [] => false
  | [], _ :: _ => true
  | _ :: _, [] => false
  | c :: cs, d :: ds => if c < d then true else if d < c then false else codeUnitLtB cs ds

/-- Case-sensitive lexicographic (code-unit) order on strings. -/
def codeUnitLt (a b : String) : Bool :=
  codeUnitLtB a.data b.data

/-- Three-way comparison derived from the code-unit order. -/
def cmpChars (a b : List Char) : Ordering :=
  if codeUnitLtB a b then Ordering.lt
  else if codeUnitLtB b a then Ordering.gt
  else Ordering.eq

/-- ASCII lowercasing, enough for the file names involved. -/
def asciiLower (c : Char) : Char :=
  if 'A' ≤ c ∧ c ≤ 'Z' then Char.ofNat (c.toNat + 32) else c

/-- Model of the host `String.prototype.localeCompare` under the default
locale: mainstream engines use the Unicode default collation, which
compares letters case-insensitively first and uses case only as a
tiebreaker with lowercase first, so `"a.js".localeCompare("B.js")` is
negative in every mainstream browser, while code-unit order puts `"B.js"`
first.  Restricted to ASCII names, faithful to the inputs used below. -/
def lcHost (a b : String) : Int :=
  match cmpChars (a.data.map asciiLower) (b.data.map asciiLower) with
  | Ordering.eq => ordToInt (cmpChars b.data a.data)
  | o => ordToInt o

/-- Sibling file named a.js. -/
def fileAjs : TreeNode := TreeNode.mk "a.js" "a.js" "file" true none 21

/-- Sibling file named B.js. -/
def fileBjs : TreeNode := TreeNode.mk "B.js" "B.js" "file" true none 22

/-- C9, counterexample: sorting the files [B.js, a.js] with the host
collation yields [a.js, B.js], although case-sensitive lexicographic
order puts B.js strictly before a.js; sibling files are therefore not
ordered case-sensitively lexicographically by name. -/
theorem sortSiblings_not_lexicographic :
    (sortSiblings lcHost [fileBjs, fileAjs]).map TreeNode.name = ["a.js", "B.js"] ∧
      codeUnitLt "B.js" "a.js" = true ∧ codeUnitLt "a.js" "B.js" = false := by
  refine ⟨?_, by decide, by decide⟩
  decide

theorem sorted_orderedInsert_restricted {α : Type} {r : α → α → Prop}
    [DecidableRel r] {P : α → Prop}
    (htr : ∀ x y z, P x → P y → P z → r x y → r y z → r x z)
    (hto : ∀ x y, P x → P y → r x y ∨ r y x)
    (a : α) (ha : P a) :
    ∀ l : List α, (∀ x ∈ l, P x) → List.Sorted r l →
      List.Sorted r (List.orderedInsert r a l) := by
  intro l
  induction l with
  | nil => intro _ _; exact List.sorted_singleton a
  | cons b t ihl =>
    intro hP hs
    rw [List.orderedInsert]
    by_cases hab : r a b
    · rw [if_pos hab, List.sorted_cons]
      refine ⟨?_, hs⟩
      intro c hc
      rcases List.mem_cons.mp hc with rfl | hct
      · exact hab
      · exact htr a b c ha (hP b (List.mem_cons_self b t))
          (hP c (List.mem_cons_of_mem b hct)) hab
          (List.rel_of_sorted_cons hs c hct)
    · rw [if_neg hab, List.sorted_cons]
      constructor
      · intro c hc
        rcases (List.mem_orderedInsert _).mp hc with rfl | hct
        · rcases hto c b ha (hP b (List.mem_cons_self b t)) with h | h
          · exact absurd h hab
          · exact h
        · exact List.rel_of_sorted_cons hs c hct
      · exact ihl (fun x hx => hP x (List.mem_cons_of_mem b hx)) hs.of_cons

theorem sorted_insertionSort_restricted {α : Type} {r : α → α → Prop}
    [DecidableRel r] {P : α → Prop}
    (htr : ∀ x y z, P x → P y → P z → r x y → r y z → r x z)
    (hto : ∀ x y, P x → P y → r x y ∨ r y x) :
    ∀ l : List α, (∀ x ∈ l, P x) →
      List.Sorted r (List.insertionSort r l) := by
  intro l
  induction l with
  | nil => intro _; simp
  | cons a t ihl =>
    intro hP
    rw [List.insertionSort]
    exact sorted_orderedInsert_restricted htr hto a
      (hP a (List.mem_cons_self a t)) _
      (fun x hx => hP x (List.mem_cons_of_mem a
        ((List.perm_insertionSort r t).mem_iff.mp hx)))
      (ihl (fun x hx => hP x (List.mem_cons_of_mem a hx)))

/-- C9, amended: the sorted sibling list is a permutation of the input,
it is sorted with respect to the comparator order induced by the host
collation `lc` (for any transitive and total collation), and directories
always come before files; but the same-kind name order is the collation
order of `lc`, not necessarily case-sensitive lexicographic order. -/
theorem sortSiblings_amended (lc : String → String → Int) (items : List TreeNode)
    (htr : ∀ x y z : String, lc x y ≤ 0 → lc y z ≤ 0 → lc x z ≤ 0)
    (hto : ∀ x y : String, lc x y ≤ 0 ∨ lc y x ≤ 0)
    (hty : ∀ n ∈ items, n.type = "dir" ∨ n.type = "file") :
    (sortSiblings lc items).Perm items ∧
      List.Pairwise (fun a b => cmpNode lc a b ≤ 0) (sortSiblings lc items) ∧
      List.Pairwise (fun a b => ¬(a.type = "file" ∧ b.type = "dir"))
        (sortSiblings lc items) := by
  have hperm : (sortSiblings lc items).Perm items :=
    List.perm_insertionSort _ items
  have htrN : ∀ x y z : TreeNode,
      (x.type = "dir" ∨ x.type = "file") → (y.type = "dir" ∨ y.type = "file") →
      (z.type = "dir" ∨ z.type = "file") →
      siblingLe lc x y → siblingLe lc y z → siblingLe lc x z := by
    intro x y z hx hy hz hxy hyz
    unfold siblingLe cmpNode at hxy hyz ⊢
    by_cases e1 : x.type = y.type
    · rw [if_pos e1] at hxy
      by_cases e2 : y.type = z.type
      · rw [if_pos e2] at hyz
        rw [if_pos (e1.trans e2)]
        exact htr x.name y.name z.name hxy hyz
      · rw [if_neg e2] at hyz
        by_cases hyd : y.type = "dir"
        · have hxd : x.type = "dir" := e1.trans hyd
          have hzd : z.type ≠ "dir" := fun hzd => e2 (hyd.trans hzd.symm)
          have e3 : x.type ≠ z.type := fun h => hzd (h ▸ hxd)
          rw [if_neg e3, if_pos hxd]
          omega
        · rw [if_neg hyd] at hyz
          omega
    · rw [if_neg e1] at hxy
      by_cases hxd : x.type = "dir"
      · have hyd : y.type ≠ "dir" := fun h => e1 (hxd.trans h.symm)
        have hyf : y.type = "file" := hy.resolve_left hyd
        by_cases e2 : y.type = z.type
        · have hzf : z.type = "file" := e2.symm.trans hyf
          have e3 : x.type ≠ z.type := by
            rw [hxd, hzf]
            decide
          rw [if_neg e3, if_pos hxd]
          omega
        · rw [if_neg e2, if_neg hyd] at hyz
          omega
      · rw [if_neg hxd] at hxy
        omega
  have htoN : ∀ x y : TreeNode,
      (x.type = "dir" ∨ x.type = "file") → (y.type = "dir" ∨ y.type = "file") →
      siblingLe lc x y ∨ siblingLe lc y x := by
    intro x y hx hy
    unfold siblingLe cmpNode
    by_cases e : x.type = y.type
    · rcases hto x.name y.name with h | h
      · left
        rw [if_pos e]
        exact h
      · right
        rw [if_pos e.symm]
        exact h
    · by_cases hxd : x.type = "dir"
      · left
        rw [if_neg e, if_pos hxd]
        omega
      · have hxf : x.type = "file" := hx.resolve_left hxd
        have hyd : y.type = "dir" := by
          rcases hy with h | h
          · exact h
          · exact absurd (hxf.trans h.symm) e
        right
        have e2 : y.type ≠ x.type := fun h => e h.symm
        rw [if_neg e2, if_pos hyd]
        omega
  have hsorted : List.Sorted (siblingLe lc) (sortSiblings lc items) :=
    sorted_insertionSort_restricted htrN htoN items hty
  refine ⟨hperm, hsorted, ?_⟩
  refine hsorted.imp ?_
  intro a b h hab
  rcases hab with ⟨hfa, hdb⟩
  unfold siblingLe cmpNode at h
  have e : a.type ≠ b.type := by
    rw [hfa, hdb]
    decide
  have e2 : ¬ a.type = "dir" := by
    rw [hfa]
    decide
  rw [if_neg e, if_neg e2] at h
  omega

/-- Witness for the amended C9 with the constant collation and the
siblings [fileC, dirB]. -/
theorem sortSiblings_amended_witness :
    (sortSiblings (fun _ _ => 0) [fileC, dirB]).Perm [fileC, dirB] ∧
      List.Pairwise (fun a b => cmpNode (fun _ _ => 0) a b ≤ 0)
        (sortSiblings (fun _ _ => 0) [fileC, dirB]) ∧
      List.Pairwise (fun a b => ¬(a.type = "file" ∧ b.type = "dir"))
        (sortSiblings (fun _ _ => 0) [fileC, dirB]) :=
  sortSiblings_amended (fun _ _ => 0) [fileC, dirB]
    (fun _ _ _ _ _ => Int.le_refl 0) (fun _ _ => Or.inl (Int.le_refl 0))
    (fun n hn => by
      rcases List.mem_cons.mp hn with rfl | hn2
      · exact Or.inr rfl
      · rcases List.mem_cons.mp hn2 with rfl | h3
        · exact Or.inl rfl
        · simp at h3)

end Workik
